import Mathlib

/-!
Verification of the PrivacyGuard privacy-compliance decision engine.

The development shallowly embeds the JavaScript sources of the repository:
the flat-hierarchy baseline evaluator (src/baselines/flat-hierarchy.js), the
SHA-256 based cache-key generator (src/utils/hashUtils.js), the decision
cache and coordinator logic of the API server and throughput benchmark
(server.js, benchmarks/throughput-benchmark.js), and the nested-set
containment query of the latency benchmark (benchmarks/latency-benchmark.js).
Records are modelled as explicit structures, MongoDB documents as lists,
timestamps as integers, and machine arithmetic as Nat with explicit
reduction modulo 2 to the 32 where the SHA-256 compression overflows.
-/

namespace PrivacyGuard

/-! ## Data model

Mongoose schemas: the user schema (models/user.model.js) stores a
privacyPreference subdocument with six id lists and a retention time; the
app schema stores a name, attribute ids, purpose ids and a retention time.
ObjectId values are modelled as strings (the code compares them with
toString equality only). -/

/-- A user privacy preference subdocument (models/user.model.js). -/
structure PrivacyPreference where
  attributes : List String
  exceptions : List String
  denyAttributes : List String
  allowedPurposes : List String
  prohibitedPurposes : List String
  denyPurposes : List String
  timeofRetention : Nat
deriving DecidableEq

/-- An application record (models/app.js). -/
structure App where
  name : String
  attributes : List String
  purposes : List String
  timeofRetention : Nat
deriving DecidableEq

/-- A user document: id, full name and the privacy preference. -/
structure User where
  id : String
  fullName : String
  privacyPreference : PrivacyPreference
deriving DecidableEq

/-! ## Flat-hierarchy baseline evaluator (src/baselines/flat-hierarchy.js) -/

/-- `evaluateAttributesFlat(appAttributes, userAttributes)`: true iff every
app attribute id is in the user list, by plain string equality (the JS loop
returns false at the first attribute not found). -/
def evaluateAttributesFlat (appAttributes userAttributes : List String) : Bool :=
  appAttributes.all (fun appAttr => userAttributes.any (fun userAttr => userAttr == appAttr))

/-- `evaluatePurposesFlat(appPurposes, userPurposes)`: same membership check
over purpose ids. -/
def evaluatePurposesFlat (appPurposes userPurposes : List String) : Bool :=
  appPurposes.all (fun appPurpose => userPurposes.any (fun userPurpose => userPurpose == appPurpose))

/-- The details block returned by `evaluateFlatHierarchy`. -/
structure FlatDetails where
  attrsAccepted : Bool
  purposesAccepted : Bool
  timeAccepted : Bool
deriving DecidableEq

/-- The result object of `evaluateFlatHierarchy` (the wall-clock latency
field is omitted). -/
structure FlatResult where
  result : String
  approach : String
  details : FlatDetails
deriving DecidableEq

/-- `evaluateFlatHierarchy(app, user)`: the three allow/except/deny list
checks on attributes and purposes, the retention comparison, and the final
grant/deny verdict, exactly as in src/baselines/flat-hierarchy.js. -/
def evaluateFlatHierarchy (app : App) (user : User) : FlatResult :=
  let privacyPreference := user.privacyPreference
  let isAllowedAttrs := evaluateAttributesFlat app.attributes privacyPreference.attributes
  let isExceptedAttrs := evaluateAttributesFlat app.attributes privacyPreference.exceptions
  let isDeniedAttrs := evaluateAttributesFlat app.attributes privacyPreference.denyAttributes
  let attrsAccepted := isAllowedAttrs && !isExceptedAttrs && !isDeniedAttrs
  let isAllowedPurposes := evaluatePurposesFlat app.purposes privacyPreference.allowedPurposes
  let isExceptedPurposes := evaluatePurposesFlat app.purposes privacyPreference.prohibitedPurposes
  let isDeniedPurposes := evaluatePurposesFlat app.purposes privacyPreference.denyPurposes
  let purposesAccepted := isAllowedPurposes && !isExceptedPurposes && !isDeniedPurposes
  let timeAccepted := decide (app.timeofRetention ≤ privacyPreference.timeofRetention)
  let isAccepted := attrsAccepted && purposesAccepted && timeAccepted
  { result := if isAccepted then "grant" else "deny"
    approach := "flat-hierarchy"
    details := { attrsAccepted := attrsAccepted
                 purposesAccepted := purposesAccepted
                 timeAccepted := timeAccepted } }

/-! ## The acceptance formula stated by the specification

For the refinement comparison in claim C1 we also state, in a clearly
separated definition, the per-attribute acceptance formula the
specification ascribes to the evaluator: every required id must be covered
by the allowed list and by neither the excepted nor the denied list. In the
flat baseline, covering is literal membership. -/

/-- The per-attribute formula of spec section 4.4, step 1, specialised to
flat membership. This follows the words of the spec, not the code. -/
def claimedAttrsAccepted (app : App) (p : PrivacyPreference) : Prop :=
  ∀ a ∈ app.attributes, a ∈ p.attributes ∧ a ∉ p.exceptions ∧ a ∉ p.denyAttributes

/-- The per-purpose formula of spec section 4.4, step 2, specialised to
flat membership. This follows the words of the spec, not the code. -/
def claimedPurposesAccepted (app : App) (p : PrivacyPreference) : Prop :=
  ∀ u ∈ app.purposes, u ∈ p.allowedPurposes ∧ u ∉ p.prohibitedPurposes ∧ u ∉ p.denyPurposes

/-- The grant condition the specification states: both per-id formulas plus
the retention comparison. This follows the words of the spec, not the code. -/
def claimedGrant (app : App) (p : PrivacyPreference) : Prop :=
  claimedAttrsAccepted app p ∧ claimedPurposesAccepted app p ∧
    app.timeofRetention ≤ p.timeofRetention

instance (app : App) (p : PrivacyPreference) : Decidable (claimedAttrsAccepted app p) := by
  unfold claimedAttrsAccepted; infer_instance

instance (app : App) (p : PrivacyPreference) : Decidable (claimedPurposesAccepted app p) := by
  unfold claimedPurposesAccepted; infer_instance

instance (app : App) (p : PrivacyPreference) : Decidable (claimedGrant app p) := by
  unfold claimedGrant; infer_instance

/-! ## Concrete records used in counterexamples and witnesses -/

/-- An app requiring two attributes, one of which the user excepts. -/
def appPartialExcept : App :=
  { name := "appX", attributes := ["attrA", "attrB"], purposes := ["purp1"],
    timeofRetention := 0 }

/-- A user allowing both required attributes but excepting `attrA` only. -/
def userPartialExcept : User :=
  { id := "u1", fullName := "u",
    privacyPreference :=
      { attributes := ["attrA", "attrB"], exceptions := ["attrA"],
        denyAttributes := [], allowedPurposes := ["purp1"],
        prohibitedPurposes := [], denyPurposes := [], timeofRetention := 0 } }

/-- Spec scenario 2: the app requires GPS (id attr2, child of Location). -/
def appGps : App :=
  { name := "gpsApp", attributes := ["attr2"], purposes := ["purp1"],
    timeofRetention := 0 }

/-- Spec scenario 2: the user allows Location (attr1) and denies GPS (attr2). -/
def userGps : User :=
  { id := "u2", fullName := "u",
    privacyPreference :=
      { attributes := ["attr1"], exceptions := [],
        denyAttributes := ["attr2"], allowedPurposes := ["purp1"],
        prohibitedPurposes := [], denyPurposes := [], timeofRetention := 0 } }

/-! ## SHA-256 (the digest behind src/utils/hashUtils.js)

The source calls the node crypto library with algorithm sha256 and hex
output. We embed the FIPS 180-4 algorithm over Nat, reducing modulo
4294967296 wherever the 32-bit words overflow, and emit the usual
lowercase hex digest. -/

/-- Reduce to a 32-bit word. -/
def w32 (n : Nat) : Nat := n % 4294967296

/-- Right rotation of a 32-bit word. -/
def rotr (k x : Nat) : Nat := w32 ((x >>> k) ||| (x <<< (32 - k)))

/-- FIPS 180-4 Sigma0. -/
def bigSigma0 (x : Nat) : Nat := (rotr 2 x) ^^^ (rotr 13 x) ^^^ (rotr 22 x)

/-- FIPS 180-4 Sigma1. -/
def bigSigma1 (x : Nat) : Nat := (rotr 6 x) ^^^ (rotr 11 x) ^^^ (rotr 25 x)

/-- FIPS 180-4 sigma0. -/
def smallSigma0 (x : Nat) : Nat := (rotr 7 x) ^^^ (rotr 18 x) ^^^ (x >>> 3)

/-- FIPS 180-4 sigma1. -/
def smallSigma1 (x : Nat) : Nat := (rotr 17 x) ^^^ (rotr 19 x) ^^^ (x >>> 10)

/-- FIPS 180-4 Ch. -/
def chV (x y z : Nat) : Nat := (x &&& y) ^^^ ((x ^^^ 4294967295) &&& z)

/-- FIPS 180-4 Maj. -/
def majV (x y z : Nat) : Nat := (x &&& y) ^^^ (x &&& z) ^^^ (y &&& z)

/-- The 64 SHA-256 round constants. -/
def sha256K : List Nat :=
  [1116352408, 1899447441, 3049323471, 3921009573, 961987163, 1508970993,
   2453635748, 2870763221, 3624381080, 310598401, 607225278, 1426881987,
   1925078388, 2162078206, 2614888103, 3248222580, 3835390401, 4022224774,
   264347078, 604807628, 770255983, 1249150122, 1555081692, 1996064986,
   2554220882, 2821834349, 2952996808, 3210313671, 3336571891, 3584528711,
   113926993, 338241895, 666307205, 773529912, 1294757372, 1396182291,
   1695183700, 1986661051, 2177026350, 2456956037, 2730485921, 2820302411,
   3259730800, 3345764771, 3516065817, 3600352804, 4094571909, 275423344,
   430227734, 506948616, 659060556, 883997877, 958139571, 1322822218,
   1537002063, 1747873779, 1955562222, 2024104815, 2227730452, 2361852424,
   2428436474, 2756734187, 3204031479, 3329325298]

/-- The eight 32-bit working variables of the SHA-256 compression. -/
structure S8 where
  a : Nat
  b : Nat
  c : Nat
  d : Nat
  e : Nat
  f : Nat
  g : Nat
  h : Nat
deriving DecidableEq

/-- The SHA-256 initial hash value. -/
def sha256Init : S8 :=
  ⟨1779033703, 3144134277, 1013904242, 2773480762, 1359893119, 2600822924,
   528734635, 1541459225⟩

/-- Word at index `i` of the message schedule, 0 past the end. -/
def wAt (ws : List Nat) (i : Nat) : Nat := (ws.drop i).headD 0

/-- Extend a 16-word block to the 64-word message schedule. -/
def extendSchedule : Nat → List Nat → List Nat
  | 0, ws => ws
  | k + 1, ws =>
    let n := ws.length
    let w := w32 (smallSigma1 (wAt ws (n - 2)) + wAt ws (n - 7) +
                  smallSigma0 (wAt ws (n - 15)) + wAt ws (n - 16))
    extendSchedule k (ws ++ [w])

/-- One SHA-256 round, consuming a round constant and a schedule word. -/
def round1 (st : S8) (kw : Nat × Nat) : S8 :=
  let t1 := w32 (st.h + bigSigma1 st.e + chV st.e st.f st.g + kw.1 + kw.2)
  let t2 := w32 (bigSigma0 st.a + majV st.a st.b st.c)
  ⟨w32 (t1 + t2), st.a, st.b, st.c, w32 (st.d + t1), st.e, st.f, st.g⟩

/-- Big-endian grouping of bytes into 32-bit words. -/
def bytesToWords : List Nat → List Nat
  | b0 :: b1 :: b2 :: b3 :: rest =>
    (((b0 * 256 + b1) * 256 + b2) * 256 + b3) :: bytesToWords rest
  | _ => []

/-- Compress one padded 64-byte block into the running hash. -/
def compressBlock (hs : S8) (block : List Nat) : S8 :=
  let ws := extendSchedule 48 (bytesToWords block)
  let fin := (sha256K.zip ws).foldl round1 hs
  ⟨w32 (hs.a + fin.a), w32 (hs.b + fin.b), w32 (hs.c + fin.c), w32 (hs.d + fin.d),
   w32 (hs.e + fin.e), w32 (hs.f + fin.f), w32 (hs.g + fin.g), w32 (hs.h + fin.h)⟩

/-- The message length in bits as eight big-endian bytes. -/
def lenBytes (n : Nat) : List Nat :=
  [n >>> 56 &&& 255, n >>> 48 &&& 255, n >>> 40 &&& 255, n >>> 32 &&& 255,
   n >>> 24 &&& 255, n >>> 16 &&& 255, n >>> 8 &&& 255, n &&& 255]

/-- SHA-256 padding: a 0x80 byte, zeros to 56 mod 64, then the bit length. -/
def padMessage (msg : List Nat) : List Nat :=
  let len := msg.length
  msg ++ [128] ++ List.replicate ((119 - len % 64) % 64) 0 ++ lenBytes (8 * len)

/-- Fold the compression over the 64-byte blocks (fuel bounds the recursion
so the definition stays structural and kernel-reducible). -/
def processBlocks : Nat → S8 → List Nat → S8
  | _, hs, [] => hs
  | 0, hs, _ => hs
  | fuel + 1, hs, bs => processBlocks fuel (compressBlock hs (bs.take 64)) (bs.drop 64)

/-- The SHA-256 digest of a byte sequence, as eight 32-bit words. -/
def sha256Digest (msg : List Nat) : S8 :=
  let padded := padMessage msg
  processBlocks padded.length sha256Init padded

/-- Lowercase hex digit for a value below 16. -/
def hexDigit (n : Nat) : Char :=
  if n < 10 then Char.ofNat (48 + n) else Char.ofNat (87 + n)

/-- A 32-bit word as eight lowercase hex characters. -/
def hex8 (w : Nat) : List Char :=
  [hexDigit (w / 268435456 % 16), hexDigit (w / 16777216 % 16),
   hexDigit (w / 1048576 % 16), hexDigit (w / 65536 % 16),
   hexDigit (w / 4096 % 16), hexDigit (w / 256 % 16),
   hexDigit (w / 16 % 16), hexDigit (w % 16)]

/-- The 64 hex characters of a digest. -/
def digestHex (s : S8) : List Char :=
  hex8 s.a ++ hex8 s.b ++ hex8 s.c ++ hex8 s.d ++ hex8 s.e ++ hex8 s.f ++
    hex8 s.g ++ hex8 s.h

/-- UTF-8 encoding of one code point (what the node crypto update applies
to a JavaScript string). -/
def utf8Char (c : Char) : List Nat :=
  let n := c.toNat
  if n < 128 then [n]
  else if n < 2048 then [192 + n / 64, 128 + n % 64]
  else if n < 65536 then [224 + n / 4096, 128 + n / 64 % 64, 128 + n % 64]
  else [240 + n / 262144, 128 + n / 4096 % 64, 128 + n / 64 % 64, 128 + n % 64]

/-- UTF-8 bytes of a string. -/
def utf8Bytes (s : String) : List Nat := (s.data.map utf8Char).flatten

/-- `sha256(data)` of src/utils/hashUtils.js: the 64-character lowercase
hex SHA-256 digest of the string. -/
def sha256 (data : String) : String :=
  String.mk (digestHex (sha256Digest (utf8Bytes data)))

/-! ## JSON serialization (JSON.stringify on the evaluated documents)

The records fed to `computeCacheKey` are flat JSON documents whose values
are strings, numbers or arrays of id strings. `JSON.stringify` emits the
fields in insertion order, which the embedding keeps explicit as an
association list. -/

/-- A flat JSON value: string, number, or array of strings. -/
inductive JLit : Type where
  | jstr : String → JLit
  | jnum : Nat → JLit
  | jarr : List String → JLit
deriving DecidableEq

/-- A flat JSON object: fields in insertion order. -/
abbrev JObj := List (String × JLit)

/-- JSON escaping of one character, as JSON.stringify performs it. -/
def escapeJsonChar (c : Char) : List Char :=
  if c = '"' then ['\\', '"']
  else if c = '\\' then ['\\', '\\']
  else if c = Char.ofNat 8 then ['\\', 'b']
  else if c = Char.ofNat 9 then ['\\', 't']
  else if c = Char.ofNat 10 then ['\\', 'n']
  else if c = Char.ofNat 12 then ['\\', 'f']
  else if c = Char.ofNat 13 then ['\\', 'r']
  else if c.toNat < 32 then
    ['\\', 'u', '0', '0', hexDigit (c.toNat / 16), hexDigit (c.toNat % 16)]
  else [c]

/-- A JSON string literal with quotes and escapes. -/
def jsonQuote (s : String) : String :=
  String.mk ('"' :: (s.data.map escapeJsonChar).flatten ++ ['"'])

/-- JSON text of a flat value. -/
def stringifyLit : JLit → String
  | .jstr s => jsonQuote s
  | .jnum n => toString n
  | .jarr xs => "[" ++ String.intercalate "," (xs.map jsonQuote) ++ "]"

/-- JSON text of one field. -/
def stringifyField (f : String × JLit) : String :=
  jsonQuote f.1 ++ ":" ++ stringifyLit f.2

/-- JSON.stringify of a flat object: fields in insertion order, braces
around the comma-separated field list. -/
def stringifyObj (o : JObj) : String :=
  "\x7b" ++ String.intercalate "," (o.map stringifyField) ++ "\x7d"

/-- `computeCacheKey(app, userPreference)` of src/utils/hashUtils.js:
SHA256(SHA256(stringify app) + "-" + SHA256(stringify preferences)). -/
def computeCacheKey (app userPreference : JObj) : String :=
  sha256 (sha256 (stringifyObj app) ++ "-" ++ sha256 (stringifyObj userPreference))

/-- The app document as the JSON object the server feeds to
`computeCacheKey`, fields in schema order. -/
def appToJObj (app : App) : JObj :=
  [("name", .jstr app.name), ("attributes", .jarr app.attributes),
   ("purposes", .jarr app.purposes), ("timeofRetention", .jnum app.timeofRetention)]

/-- The preference subdocument as the JSON object the server feeds to
`computeCacheKey`, fields in schema order. -/
def prefToJObj (p : PrivacyPreference) : JObj :=
  [("attributes", .jarr p.attributes), ("exceptions", .jarr p.exceptions),
   ("denyAttributes", .jarr p.denyAttributes),
   ("allowedPurposes", .jarr p.allowedPurposes),
   ("prohibitedPurposes", .jarr p.prohibitedPurposes),
   ("denyPurposes", .jarr p.denyPurposes),
   ("timeofRetention", .jnum p.timeofRetention)]

/-! ## Decision cache and evaluation coordinator

The EvaluateHash collection (models/evaluate-hash.model.js) stores
`{userId, hash, result, createdAt}` rows. The POST /api/evaluate handler
(server.js) and `processEvaluationRequest` (throughput-benchmark.js) both:
compute the cache key, run findOne with userId, hash and
`createdAt >= now - timeofRetention seconds`, serve a hit, or evaluate and
insert a fresh row. Timestamps are integers (seconds). -/

/-- One row of the EvaluateHash cache collection. -/
structure CacheEntry where
  userId : String
  hash : String
  result : String
  createdAt : Int
deriving DecidableEq

/-- The findOne query of the evaluate path: first entry of the collection
matching userId, hash, and creation time at or after `now` minus the
retention window. -/
def cacheLookup (cache : List CacheEntry) (userId hash : String)
    (timeofRetention : Nat) (now : Int) : Option CacheEntry :=
  cache.find? (fun e =>
    e.userId == userId && e.hash == hash &&
      decide (now - (timeofRetention : Int) ≤ e.createdAt))

/-- The cache key the server computes for a request:
`computeCacheKey(app, user.privacyPreference)`. -/
def requestHash (app : App) (user : User) : String :=
  computeCacheKey (appToJObj app) (prefToJObj user.privacyPreference)

/-- The response of one evaluation request. -/
structure EvalResponse where
  result : String
  cacheHit : Bool
deriving DecidableEq

/-- `processEvaluationRequest(app, user)` over an explicit cache state and
clock. The hierarchical evaluator `Helpers.PrivacyPreference.evaluate`
(src/helpers/privacy-preference.helper.js) is not among the provided
sources, so the coordinator is parametric in it: any `evaluate` function
from app and user to a boolean. On a hit the cached result is returned
with cacheHit true and the cache unchanged; on a miss the evaluator runs,
the verdict string is stored with the current creation time, and cacheHit
is false. -/
def processEvaluationRequest (evaluate : App → User → Bool)
    (cache : List CacheEntry) (app : App) (user : User) (now : Int) :
    EvalResponse × List CacheEntry :=
  let userId := user.id
  let hashValue := requestHash app user
  match cacheLookup cache userId hashValue user.privacyPreference.timeofRetention now with
  | some permission => ({ result := permission.result, cacheHit := true }, cache)
  | none =>
      let result := if evaluate app user then "grant" else "deny"
      ({ result := result, cacheHit := false },
       cache ++ [{ userId := userId, hash := hashValue, result := result, createdAt := now }])

/-- The server state touched by the preference-update endpoint: the user
collection and the EvaluateHash cache collection. -/
structure ServerState where
  users : List User
  cache : List CacheEntry
deriving DecidableEq

/-- findById over the user collection. -/
def findUser (users : List User) (userId : String) : Option User :=
  users.find? (fun u => u.id == userId)

/-- PUT /api/users/:userId/preferences (server.js): findByIdAndUpdate with
the new preference, 404 (`none`) when the user does not exist, then
`EvaluateHash.deleteMany` of every cache row of that user. -/
def updatePreferences (st : ServerState) (userId : String)
    (privacyPreference : PrivacyPreference) : Option ServerState :=
  match findUser st.users userId with
  | none => none
  | some _ =>
      some { users := st.users.map (fun u =>
               if u.id == userId then { u with privacyPreference := privacyPreference } else u)
             cache := st.cache.filter (fun e => !(e.userId == userId)) }

/-! ## Policy tree and nested-set containment

The PrivacyPolicy collection stores each taxonomy as a flat list of
`{_id, name, left, right}` nodes carrying a nested-set numbering (the
generators ship, e.g., Location (1,6) with children GPS (2,3) and
IP Address (4,5)). The latency benchmark (measureNestedSetQuery,
benchmarks/latency-benchmark.js) answers containment by looking the target
node up by id and asking for a candidate node with
`left <= target.left AND right >= target.right`.

Modelled from the spec: the `buildTree` numbering of spec section 4.1 —
assign `left` on the first visit of a pre-order traversal and `right`
after all children are visited, root starting at 1 — is not among the
provided sources (the repository ships only already-numbered node lists),
so `numberForest`/`numberTree` reconstruct it from the words of the spec. -/

/-- One numbered taxonomy node of the PrivacyPolicy collection. -/
structure PNode where
  id : String
  left : Nat
  right : Nat
deriving DecidableEq

mutual
/-- A taxonomy tree: a node id with a forest of children. -/
inductive PTree : Type where
  | node : String → PForest → PTree
/-- A forest of taxonomy trees. -/
inductive PForest : Type where
  | nil : PForest
  | cons : PTree → PForest → PForest
end

/-- Modelled from the spec: number a forest pre-order starting at counter
`n`; each node receives `left` on entry and `right` when its children are
done, and the updated counter is returned alongside the node list. -/
def numberForest : PForest → Nat → List PNode × Nat
  | .nil, n => ([], n)
  | .cons (.node i f) g, n =>
    let inner := numberForest f (n + 1)
    let rest := numberForest g (inner.2 + 1)
    ((⟨i, n, inner.2⟩ : PNode) :: inner.1 ++ rest.1, rest.2)

/-- Modelled from the spec: number one tree starting at counter `n`. -/
def numberTree (t : PTree) (n : Nat) : List PNode × Nat :=
  match t with
  | .node i f =>
    ((⟨i, n, (numberForest f (n + 1)).2⟩ : PNode) :: (numberForest f (n + 1)).1,
     (numberForest f (n + 1)).2 + 1)

/-- The id at the root of a tree. -/
def rootId : PTree → String
  | .node i _ => i

/-- Look a node up by id in the flat node list (the aggregate/unwind
lookup of measureNestedSetQuery). -/
def findNode (es : List PNode) (i : String) : Option PNode :=
  es.find? (fun e => e.id == i)

/-- `isAncestorOrSelf(candidateId, targetId)`: resolve both ids in the
node list and test `candidate.left <= target.left AND
candidate.right >= target.right`, the condition of the nested-set findOne
in measureNestedSetQuery; unresolved ids fail the check. -/
def isAncestorOrSelf (es : List PNode) (candidateId targetId : String) : Bool :=
  match findNode es candidateId, findNode es targetId with
  | some a, some b => decide (a.left ≤ b.left) && decide (b.right ≤ a.right)
  | _, _ => false

/-- Membership of a tree in a forest (one level). -/
inductive MemF : PTree → PForest → Prop where
  | head (t : PTree) (f : PForest) : MemF t (.cons t f)
  | tail {t s : PTree} {f : PForest} : MemF t f → MemF t (.cons s f)

/-- `Occurs s t`: the tree `s` is a subtree occurrence of `t` (self
included). -/
inductive Occurs : PTree → PTree → Prop where
  | refl (t : PTree) : Occurs t t
  | step {s t : PTree} {i : String} {f : PForest} :
      MemF t f → Occurs s t → Occurs s (.node i f)

/-- `FOcc g t`: the forest `g` is the child forest of some node of `t`. -/
inductive FOcc : PForest → PTree → Prop where
  | here (i : String) (f : PForest) : FOcc f (.node i f)
  | deeper {g : PForest} {s : PTree} {i : String} {f : PForest} :
      MemF s f → FOcc g s → FOcc g (.node i f)

/-- `SiblingsIn f ta tb`: `ta` and `tb` are two distinct sibling positions
of the forest `f`, in either order. -/
inductive SiblingsIn : PForest → PTree → PTree → Prop where
  | fwd {ta tb : PTree} {f : PForest} : MemF tb f → SiblingsIn (.cons ta f) ta tb
  | bwd {ta tb : PTree} {f : PForest} : MemF ta f → SiblingsIn (.cons tb f) ta tb
  | step {ta tb t : PTree} {f : PForest} :
      SiblingsIn f ta tb → SiblingsIn (.cons t f) ta tb

/-- The quick-test-data GPS subtree (id attr2, Location child). -/
def gpsTree : PTree := .node "attr2" .nil

/-- The quick-test-data IP Address subtree (id attr3, Location child). -/
def ipTree : PTree := .node "attr3" .nil

/-- The quick-test-data Location attribute tree: Location (1,6) with
children GPS (2,3) and IP Address (4,5). -/
def attrTree : PTree := .node "attr1" (.cons gpsTree (.cons ipTree .nil))

/-- The quick-test-data Contact attribute tree: Contact (7,10) with child
Email (8,9). -/
def contactTree : PTree := .node "attr4" (.cons (.node "attr5" .nil) .nil)

/-- The quick-test-data Marketing purpose tree: Marketing (1,4) with child
Advertising (2,3). -/
def marketingTree : PTree := .node "purp1" (.cons (.node "purp2" .nil) .nil)

/-- The quick-test-data Analytics purpose tree: Analytics (5,6). -/
def analyticsTree : PTree := .node "purp3" .nil

/-- Every attribute id of the quick-test-data privacy policy. -/
def quickPolicyAttributeIds : List String :=
  (numberTree attrTree 1).1.map PNode.id ++ (numberTree contactTree 7).1.map PNode.id

/-- Every purpose id of the quick-test-data privacy policy. -/
def quickPolicyPurposeIds : List String :=
  (numberTree marketingTree 1).1.map PNode.id ++ (numberTree analyticsTree 5).1.map PNode.id

/-- An app claiming a longer retention (5000) than the user grants. -/
def appRetention : App :=
  { name := "retApp", attributes := ["attrA"], purposes := ["purp1"],
    timeofRetention := 5000 }

/-- A user permitting every id the app requires but only 1000 seconds of
retention. -/
def userRetention : User :=
  { id := "u3", fullName := "u",
    privacyPreference :=
      { attributes := ["attrA"], exceptions := [],
        denyAttributes := [], allowedPurposes := ["purp1"],
        prohibitedPurposes := [], denyPurposes := [], timeofRetention := 1000 } }

/-- An app with an empty required attribute list. -/
def appNoAttrs : App :=
  { name := "emptyApp", attributes := [], purposes := ["purp1"],
    timeofRetention := 0 }

/-- An app whose ids appear in no tree of the quick-test-data policy. -/
def appUnknown : App :=
  { name := "ghostApp", attributes := ["ghostAttr"], purposes := ["ghostPurp"],
    timeofRetention := 0 }

/-- A user who lists the same unknown ids in the allow lists. -/
def userUnknown : User :=
  { id := "u4", fullName := "u",
    privacyPreference :=
      { attributes := ["ghostAttr"], exceptions := [],
        denyAttributes := [], allowedPurposes := ["ghostPurp"],
        prohibitedPurposes := [], denyPurposes := [], timeofRetention := 0 } }

/-- A two-field JSON document. -/
def jObjAB : JObj := [("a", .jnum 1), ("b", .jnum 2)]

/-- The same two fields in the opposite insertion order. -/
def jObjBA : JObj := [("b", .jnum 2), ("a", .jnum 1)]

/-- A one-field JSON document standing for the preference side. -/
def jObjC : JObj := [("c", .jnum 3)]

/-- A server state holding one user and one cache row of that user. -/
def stBefore : ServerState :=
  { users := [userGps], cache := [⟨"u2", "h1", "grant", 0⟩] }

/-- The state after the preference update of user u2: preference replaced,
cache rows of u2 removed. -/
def stAfter : ServerState :=
  { users := [{ userGps with privacyPreference := userRetention.privacyPreference }],
    cache := [] }

/-! ### Nested-set numbering lemmas -/

/-- Unfolding equation: numbering the empty forest. -/
theorem numberForest_nil (n : Nat) : numberForest .nil n = ([], n) := rfl

/-- Unfolding equation: the entries of a numbered nonempty forest. -/
theorem numberForest_cons_fst (i : String) (g f2 : PForest) (n : Nat) :
    (numberForest (.cons (.node i g) f2) n).1 =
      (⟨i, n, (numberForest g (n + 1)).2⟩ : PNode) ::
        (numberForest g (n + 1)).1 ++
          (numberForest f2 ((numberForest g (n + 1)).2 + 1)).1 := rfl

/-- Unfolding equation: the final counter of a numbered nonempty forest. -/
theorem numberForest_cons_snd (i : String) (g f2 : PForest) (n : Nat) :
    (numberForest (.cons (.node i g) f2) n).2 =
      (numberForest f2 ((numberForest g (n + 1)).2 + 1)).2 := rfl

/-- Unfolding equation: the entries of a numbered tree. -/
theorem numberTree_node_fst (i : String) (f : PForest) (n : Nat) :
    (numberTree (.node i f) n).1 =
      (⟨i, n, (numberForest f (n + 1)).2⟩ : PNode) :: (numberForest f (n + 1)).1 := rfl

/-- Unfolding equation: the final counter of a numbered tree. -/
theorem numberTree_node_snd (i : String) (f : PForest) (n : Nat) :
    (numberTree (.node i f) n).2 = (numberForest f (n + 1)).2 + 1 := rfl

/-- The counter never decreases while numbering a forest. -/
theorem numberForest_le : ∀ (f : PForest) (n : Nat), n ≤ (numberForest f n).2
  | .nil, n => by simp [numberForest_nil]
  | .cons (.node i g) f2, n => by
    have h1 := numberForest_le g (n + 1)
    have h2 := numberForest_le f2 ((numberForest g (n + 1)).2 + 1)
    rw [numberForest_cons_snd]
    omega

/-- The counter strictly grows while numbering a tree. -/
theorem numberTree_lt (t : PTree) (n : Nat) : n < (numberTree t n).2 := by
  cases t with
  | node i f =>
    have := numberForest_le f (n + 1)
    rw [numberTree_node_snd]
    omega

/-- Every entry produced by numbering a forest from `n` has its interval
inside the final counter span and a strictly smaller left than right. -/
theorem numberForest_bounds : ∀ (f : PForest) (n : Nat), ∀ e ∈ (numberForest f n).1,
    n ≤ e.left ∧ e.left < e.right ∧ e.right < (numberForest f n).2
  | .nil, n => by simp [numberForest_nil]
  | .cons (.node i g) f2, n => by
    intro e he
    have hg := numberForest_bounds g (n + 1)
    have hf2 := numberForest_bounds f2 ((numberForest g (n + 1)).2 + 1)
    have l1 := numberForest_le g (n + 1)
    have l2 := numberForest_le f2 ((numberForest g (n + 1)).2 + 1)
    rw [numberForest_cons_fst] at he
    rw [numberForest_cons_snd]
    rcases List.mem_cons.mp he with he1 | he2
    · subst he1
      simp only
      omega
    · rcases List.mem_append.mp he2 with hg1 | hf1
      · have := hg e hg1
        omega
      · have := hf2 e hf1
        omega

/-- Tree version of the interval bounds. -/
theorem numberTree_bounds (t : PTree) (n : Nat) : ∀ e ∈ (numberTree t n).1,
    n ≤ e.left ∧ e.left < e.right ∧ e.right < (numberTree t n).2 := by
  cases t with
  | node i f =>
    intro e he
    have hf := numberForest_bounds f (n + 1)
    have l := numberForest_le f (n + 1)
    rw [numberTree_node_fst] at he
    rw [numberTree_node_snd]
    rcases List.mem_cons.mp he with he1 | h
    · subst he1
      simp only
      omega
    · have := hf e h
      omega

/-- Numbering a forest head-first splits as tree entries then the rest. -/
theorem numberForest_split (t : PTree) (f : PForest) (n : Nat) :
    (numberForest (.cons t f) n).1 =
      (numberTree t n).1 ++ (numberForest f (numberTree t n).2).1 ∧
    (numberForest (.cons t f) n).2 = (numberForest f (numberTree t n).2).2 := by
  cases t with
  | node i g =>
    rw [numberForest_cons_fst, numberForest_cons_snd, numberTree_node_fst,
      numberTree_node_snd]
    exact ⟨rfl, rfl⟩

/-- The first entry of a numbered tree is its root, with left the start
counter and right one below the final counter. -/
theorem numberTree_root (t : PTree) (n : Nat) :
    ∃ tl, (numberTree t n).1 =
      (⟨rootId t, n, (numberTree t n).2 - 1⟩ : PNode) :: tl := by
  cases t with
  | node i f =>
    refine ⟨(numberForest f (n + 1)).1, ?_⟩
    rw [numberTree_node_fst, numberTree_node_snd, rootId]
    simp

/-- A forest member tree is numbered, from some start at or after `n`,
within the entries and counter span of the forest. -/
theorem memF_entries {t : PTree} {f : PForest} (h : MemF t f) (n : Nat) :
    ∃ k, n ≤ k ∧ (numberTree t k).2 ≤ (numberForest f n).2 ∧
      ∀ e ∈ (numberTree t k).1, e ∈ (numberForest f n).1 := by
  induction h generalizing n with
  | head f2 =>
    obtain ⟨h1, h2⟩ := numberForest_split t f2 n
    refine ⟨n, Nat.le_refl n, ?_, ?_⟩
    · rw [h2]
      exact numberForest_le f2 _
    · intro e he
      rw [h1]
      exact List.mem_append_left _ he
  | tail hmem ih =>
    rename_i s2 f2
    obtain ⟨hc1, hc2⟩ := numberForest_split s2 f2 n
    obtain ⟨k, hk1, hk2, hk3⟩ := ih (numberTree s2 n).2
    refine ⟨k, ?_, ?_, ?_⟩
    · exact Nat.le_trans (Nat.le_of_lt (numberTree_lt s2 n)) hk1
    · rw [hc2]
      exact hk2
    · intro e he
      rw [hc1]
      exact List.mem_append_right _ (hk3 e he)

/-- A subtree occurrence is numbered, from some start at or after `n`,
within the entries and counter span of the whole tree. -/
theorem occurs_entries {s t : PTree} (h : Occurs s t) (n : Nat) :
    ∃ k, n ≤ k ∧ (numberTree s k).2 ≤ (numberTree t n).2 ∧
      ∀ e ∈ (numberTree s k).1, e ∈ (numberTree t n).1 := by
  induction h generalizing n with
  | refl => exact ⟨n, Nat.le_refl n, Nat.le_refl _, fun _ he => he⟩
  | step hmem hocc ih =>
    rename_i t2 i f2
    obtain ⟨k1, h1, h2, h3⟩ := memF_entries hmem (n + 1)
    obtain ⟨k, hk1, hk2, hk3⟩ := ih k1
    refine ⟨k, by omega, ?_, ?_⟩
    · rw [numberTree_node_snd]
      omega
    · intro e he
      have hmemE := h3 _ (hk3 e he)
      rw [numberTree_node_fst]
      exact List.mem_cons_of_mem _ hmemE

/-- The root entry of a subtree occurrence sits inside the interval of the
root of the containing tree. -/
theorem occurs_interval {b a : PTree} (h : Occurs b a) (k : Nat) :
    ∃ eb : PNode, eb ∈ (numberTree a k).1 ∧ eb.id = rootId b ∧
      k ≤ eb.left ∧ eb.right ≤ (numberTree a k).2 - 1 := by
  obtain ⟨k2, hk2, hcnt, hsub⟩ := occurs_entries h k
  obtain ⟨tl, htl⟩ := numberTree_root b k2
  refine ⟨⟨rootId b, k2, (numberTree b k2).2 - 1⟩, ?_, rfl, hk2, ?_⟩
  · apply hsub
    rw [htl]
    exact List.mem_cons_self _ _
  · show (numberTree b k2).2 - 1 ≤ (numberTree a k).2 - 1
    have h1 := numberTree_lt b k2
    have h2 := numberTree_lt a k
    omega

/-- With duplicate-free ids, looking up the id of a stored node returns
exactly that node. -/
theorem findNode_nodup {es : List PNode} (hnd : (es.map PNode.id).Nodup)
    {e : PNode} (he : e ∈ es) : findNode es e.id = some e := by
  induction es with
  | nil => cases he
  | cons a tl ih =>
    simp only [List.map_cons, List.nodup_cons] at hnd
    rcases List.mem_cons.mp he with rfl | htl
    · simp [findNode, List.find?]
    · by_cases hid : a.id = e.id
      · exact absurd (hid ▸ List.mem_map_of_mem PNode.id htl) hnd.1
      · have hrec : findNode tl e.id = some e := ih hnd.2 htl
        simp only [findNode, List.find?] at hrec ⊢
        rw [show (a.id == e.id) = false from beq_eq_false_iff_ne.mpr hid]
        exact hrec

/-- Sibling subtrees receive disjoint root intervals. -/
theorem siblings_disjoint {f : PForest} {ta tb : PTree}
    (h : SiblingsIn f ta tb) (n : Nat) :
    ∃ ka ra kb rb, (⟨rootId ta, ka, ra⟩ : PNode) ∈ (numberForest f n).1 ∧
      (⟨rootId tb, kb, rb⟩ : PNode) ∈ (numberForest f n).1 ∧
      (ra < kb ∨ rb < ka) := by
  induction h generalizing n with
  | fwd hmem =>
    rename_i ta2 tb2 f2
    obtain ⟨hc1, hc2⟩ := numberForest_split ta2 f2 n
    obtain ⟨tl, htl⟩ := numberTree_root ta2 n
    obtain ⟨k, hk, hcnt, hsub⟩ := memF_entries hmem (numberTree ta2 n).2
    obtain ⟨tlb, htlb⟩ := numberTree_root tb2 k
    refine ⟨n, (numberTree ta2 n).2 - 1, k, (numberTree tb2 k).2 - 1, ?_, ?_, ?_⟩
    · rw [hc1]
      apply List.mem_append_left
      rw [htl]
      exact List.mem_cons_self _ _
    · rw [hc1]
      apply List.mem_append_right
      apply hsub
      rw [htlb]
      exact List.mem_cons_self _ _
    · left
      have := numberTree_lt ta2 n
      omega
  | bwd hmem =>
    rename_i ta2 tb2 f2
    obtain ⟨hc1, hc2⟩ := numberForest_split tb2 f2 n
    obtain ⟨tl, htl⟩ := numberTree_root tb2 n
    obtain ⟨k, hk, hcnt, hsub⟩ := memF_entries hmem (numberTree tb2 n).2
    obtain ⟨tla, htla⟩ := numberTree_root ta2 k
    refine ⟨k, (numberTree ta2 k).2 - 1, n, (numberTree tb2 n).2 - 1, ?_, ?_, ?_⟩
    · rw [hc1]
      apply List.mem_append_right
      apply hsub
      rw [htla]
      exact List.mem_cons_self _ _
    · rw [hc1]
      apply List.mem_append_left
      rw [htl]
      exact List.mem_cons_self _ _
    · right
      have := numberTree_lt tb2 n
      omega
  | step hsib ih =>
    rename_i t2 f2
    obtain ⟨hc1, hc2⟩ := numberForest_split t2 f2 n
    obtain ⟨ka, ra, kb, rb, hma, hmb, hdisj⟩ := ih (numberTree t2 n).2
    refine ⟨ka, ra, kb, rb, ?_, ?_, hdisj⟩
    · rw [hc1]
      exact List.mem_append_right _ hma
    · rw [hc1]
      exact List.mem_append_right _ hmb

/-- The entries of an embedded child forest are entries of the whole
tree. -/
theorem focc_entries {g : PForest} {t : PTree} (h : FOcc g t) (n : Nat) :
    ∃ k, ∀ e ∈ (numberForest g k).1, e ∈ (numberTree t n).1 := by
  induction h generalizing n with
  | here i =>
    refine ⟨n + 1, fun e he => ?_⟩
    rw [numberTree_node_fst]
    exact List.mem_cons_of_mem _ he
  | deeper hmem hocc ih =>
    rename_i s2 i2 f2
    obtain ⟨k1, hk1le, hk1cnt, hk1sub⟩ := memF_entries hmem (n + 1)
    obtain ⟨k, hk⟩ := ih k1
    refine ⟨k, fun e he => ?_⟩
    have hmemE := hk1sub _ (hk e he)
    rw [numberTree_node_fst]
    exact List.mem_cons_of_mem _ hmemE

/-! ## Claims about the flat-hierarchy evaluator -/

/-- The verdict string is grant exactly when the acceptance boolean holds. -/
theorem grant_iff_bool (b : Bool) :
    ((if b then "grant" else "deny") = "grant") ↔ b = true := by
  cases b <;> simp

/-- C1 counterexample: the app requires attrA and attrB, the user allows
both and excepts attrA only. The code grants, because the exception check
negates a whole-list test, while the per-attribute formula of the claim
rejects attrA and demands deny. -/
theorem c1_claim_false_at_partial_exception :
    (evaluateFlatHierarchy appPartialExcept userPartialExcept).result = "grant" ∧
      ¬ claimedGrant appPartialExcept userPartialExcept.privacyPreference := by
  constructor
  · decide
  · intro hcl
    rcases hcl with ⟨hattrs, hrest⟩
    have := hattrs "attrA" (by decide)
    revert this
    decide

/-- The grant verdict of the flat evaluator, characterised by the three
whole-list membership conditions per id kind plus the retention
comparison. -/
theorem flat_grant_iff (app : App) (user : User) :
    (evaluateFlatHierarchy app user).result = "grant" ↔
      ((∀ a ∈ app.attributes, a ∈ user.privacyPreference.attributes) ∧
       ¬(∀ a ∈ app.attributes, a ∈ user.privacyPreference.exceptions) ∧
       ¬(∀ a ∈ app.attributes, a ∈ user.privacyPreference.denyAttributes) ∧
       (∀ u ∈ app.purposes, u ∈ user.privacyPreference.allowedPurposes) ∧
       ¬(∀ u ∈ app.purposes, u ∈ user.privacyPreference.prohibitedPurposes) ∧
       ¬(∀ u ∈ app.purposes, u ∈ user.privacyPreference.denyPurposes) ∧
       app.timeofRetention ≤ user.privacyPreference.timeofRetention) := by
  simp only [evaluateFlatHierarchy]
  rw [grant_iff_bool]
  simp [evaluateAttributesFlat, evaluatePurposesFlat, List.all_eq_true,
    List.any_eq_true, and_assoc]

/-- C1 (amended): the evaluator grants iff every required attribute is in
the allowed list, it is not the case that every required attribute is in
the excepted list, it is not the case that every required attribute is in
the denied list, the three corresponding whole-list conditions hold for
purposes, and the retention comparison passes; moreover on spec scenario 2
(allowed Location, denied GPS, app requires GPS) the verdict is deny. -/
theorem c1_flat_grant_characterisation :
    (∀ (app : App) (user : User),
      (evaluateFlatHierarchy app user).result = "grant" ↔
        ((∀ a ∈ app.attributes, a ∈ user.privacyPreference.attributes) ∧
         ¬(∀ a ∈ app.attributes, a ∈ user.privacyPreference.exceptions) ∧
         ¬(∀ a ∈ app.attributes, a ∈ user.privacyPreference.denyAttributes) ∧
         (∀ u ∈ app.purposes, u ∈ user.privacyPreference.allowedPurposes) ∧
         ¬(∀ u ∈ app.purposes, u ∈ user.privacyPreference.prohibitedPurposes) ∧
         ¬(∀ u ∈ app.purposes, u ∈ user.privacyPreference.denyPurposes) ∧
         app.timeofRetention ≤ user.privacyPreference.timeofRetention)) ∧
    (evaluateFlatHierarchy appGps userGps).result = "deny" :=
  ⟨flat_grant_iff, by decide⟩

/-- C2: the timeAccepted detail equals the retention comparison
`app.timeofRetention <= preference.timeofRetention`, and whenever the app
claims more retention than the user grants the verdict is deny. -/
theorem c2_retention_check (app : App) (user : User) :
    ((evaluateFlatHierarchy app user).details.timeAccepted =
        decide (app.timeofRetention ≤ user.privacyPreference.timeofRetention)) ∧
    (user.privacyPreference.timeofRetention < app.timeofRetention →
      (evaluateFlatHierarchy app user).result = "deny") := by
  refine ⟨rfl, fun hlt => ?_⟩
  simp only [evaluateFlatHierarchy]
  have hdec : decide (app.timeofRetention ≤ user.privacyPreference.timeofRetention) = false := by
    simp
    omega
  rw [hdec]
  simp

/-- C2 witness: retention 5000 against a 1000-second preference denies. -/
theorem c2_retention_witness :
    userRetention.privacyPreference.timeofRetention < appRetention.timeofRetention ∧
      (evaluateFlatHierarchy appRetention userRetention).result = "deny" :=
  ⟨by decide, (c2_retention_check appRetention userRetention).2 (by decide)⟩

/-- C9 counterexample: ghostAttr and ghostPurp appear in no taxonomy tree
of the quick-test-data policy, yet an app requiring them is granted when
the user lists the same unknown ids, because the flat evaluator never
consults the policy tree. -/
theorem c9_unknown_id_grants :
    "ghostAttr" ∉ quickPolicyAttributeIds ∧
    "ghostPurp" ∉ quickPolicyPurposeIds ∧
    (evaluateFlatHierarchy appUnknown userUnknown).result = "grant" := by
  decide

/-- C9 (amended): the flat evaluator resolves ids by literal string
equality against the preference lists only; a grant still certifies that
the user listed every required attribute and purpose id, known or not. -/
theorem c9_grant_requires_user_listing (app : App) (user : User)
    (h : (evaluateFlatHierarchy app user).result = "grant") :
    (∀ a ∈ app.attributes, a ∈ user.privacyPreference.attributes) ∧
    (∀ u ∈ app.purposes, u ∈ user.privacyPreference.allowedPurposes) := by
  have hch := (flat_grant_iff app user).mp h
  exact ⟨hch.1, hch.2.2.2.1⟩

/-- C9 witness: the granting run of the unknown-id records certifies the
user listed both ghost ids. -/
theorem c9_grant_requires_user_listing_witness :
    (evaluateFlatHierarchy appUnknown userUnknown).result = "grant" ∧
    ((∀ a ∈ appUnknown.attributes, a ∈ userUnknown.privacyPreference.attributes) ∧
     (∀ u ∈ appUnknown.purposes, u ∈ userUnknown.privacyPreference.allowedPurposes)) :=
  ⟨by decide, c9_grant_requires_user_listing appUnknown userUnknown (by decide)⟩

/-- C10: an empty required attribute list makes all three attribute checks
vacuously true, so attrsAccepted is false and the verdict is deny; an
empty purpose list behaves the same way. -/
theorem c10_empty_lists_deny (app : App) (user : User) :
    (app.attributes = [] → (evaluateFlatHierarchy app user).result = "deny") ∧
    (app.purposes = [] → (evaluateFlatHierarchy app user).result = "deny") := by
  constructor
  · intro h
    simp only [evaluateFlatHierarchy, evaluateAttributesFlat, h]
    simp
  · intro h
    simp only [evaluateFlatHierarchy, evaluatePurposesFlat, h]
    simp

/-- C10 witness: the empty-attribute app is denied even by a fully
permissive user. -/
theorem c10_empty_lists_deny_witness :
    appNoAttrs.attributes = [] ∧
      (evaluateFlatHierarchy appNoAttrs userPartialExcept).result = "deny" :=
  ⟨rfl, (c10_empty_lists_deny appNoAttrs userPartialExcept).1 rfl⟩

/-! ## Claims about the nested-set policy tree -/

/-- C3: over the duplicate-free node list of one numbered taxonomy tree,
isAncestorOrSelf of two stored nodes is true exactly when the candidate
interval contains the target interval; consequently it is true for every
ancestor-or-self pair of subtree occurrences and false for nodes rooted in
two distinct sibling subtrees. -/
theorem c3_isAncestorOrSelf_containment (t : PTree) (es : List PNode)
    (hes : es = (numberTree t 1).1) (hnd : (es.map PNode.id).Nodup) :
    (∀ A ∈ es, ∀ B ∈ es,
      (isAncestorOrSelf es A.id B.id = true ↔ (A.left ≤ B.left ∧ A.right ≥ B.right))) ∧
    (∀ a b, Occurs a t → Occurs b a →
      isAncestorOrSelf es (rootId a) (rootId b) = true) ∧
    (∀ f ta tb, FOcc f t → SiblingsIn f ta tb →
      isAncestorOrSelf es (rootId ta) (rootId tb) = false) := by
  refine ⟨?_, ?_, ?_⟩
  · intro A hA B hB
    have fA := findNode_nodup hnd hA
    have fB := findNode_nodup hnd hB
    simp [isAncestorOrSelf, fA, fB, ge_iff_le]
  · intro a b ha hb
    obtain ⟨k, hk, hcnt, hsub⟩ := occurs_entries ha 1
    obtain ⟨tl, htl⟩ := numberTree_root a k
    have heA : (⟨rootId a, k, (numberTree a k).2 - 1⟩ : PNode) ∈ es := by
      rw [hes]
      apply hsub
      rw [htl]
      exact List.mem_cons_self _ _
    obtain ⟨eb, hebmem, hebid, heblft, hebrgt⟩ := occurs_interval hb k
    have hebes : eb ∈ es := by
      rw [hes]
      exact hsub _ hebmem
    have fA : findNode es (rootId a) = some ⟨rootId a, k, (numberTree a k).2 - 1⟩ :=
      findNode_nodup hnd heA
    have fB : findNode es (rootId b) = some eb := by
      have hf := findNode_nodup hnd hebes
      rwa [hebid] at hf
    simp only [isAncestorOrSelf, fA, fB]
    simp only [Bool.and_eq_true, decide_eq_true_eq]
    exact ⟨heblft, hebrgt⟩
  · intro f ta tb hf hsib
    obtain ⟨k, hsubF⟩ := focc_entries hf 1
    obtain ⟨ka, ra, kb, rb, hma, hmb, hdisj⟩ := siblings_disjoint hsib k
    have hEa : (⟨rootId ta, ka, ra⟩ : PNode) ∈ es := by
      rw [hes]
      exact hsubF _ hma
    have hEb : (⟨rootId tb, kb, rb⟩ : PNode) ∈ es := by
      rw [hes]
      exact hsubF _ hmb
    have hbb : kb < rb := by
      have hmemT : (⟨rootId tb, kb, rb⟩ : PNode) ∈ (numberTree t 1).1 := by
        rw [← hes]
        exact hEb
      have := numberTree_bounds t 1 _ hmemT
      simpa using this.2.1
    have fA : findNode es (rootId ta) = some ⟨rootId ta, ka, ra⟩ :=
      findNode_nodup hnd hEa
    have fB : findNode es (rootId tb) = some ⟨rootId tb, kb, rb⟩ :=
      findNode_nodup hnd hEb
    simp only [isAncestorOrSelf, fA, fB]
    rcases hdisj with hlt | hlt
    · have hno : ¬(rb ≤ ra) := by omega
      simp [hno]
    · have hno : ¬(ka ≤ kb) := by omega
      simp [hno]

/-- C3 witness: on the quick-test-data Location tree numbered from 1, the
ids are duplicate-free, Location (attr1) is an ancestor-or-self of GPS
(attr2), and the siblings GPS and IP Address (attr3) do not contain each
other. -/
theorem c3_isAncestorOrSelf_containment_witness :
    (((numberTree attrTree 1).1.map PNode.id).Nodup ∧
      isAncestorOrSelf (numberTree attrTree 1).1 "attr1" "attr2" = true ∧
      isAncestorOrSelf (numberTree attrTree 1).1 "attr2" "attr3" = false) := by
  have h := c3_isAncestorOrSelf_containment attrTree ((numberTree attrTree 1).1)
    rfl (by decide)
  refine ⟨by decide, ?_, ?_⟩
  · exact h.2.1 attrTree gpsTree (.refl _) (.step (.head _ _) (.refl _))
  · exact h.2.2 (.cons gpsTree (.cons ipTree .nil)) gpsTree ipTree (.here _ _)
      (.fwd (.head _ _))

/-! ## Claims about the decision cache and coordinator -/

/-- A find? over an extended list: when the prefix has no match and the
appended element matches, the appended element is found. -/
theorem find?_append_singleton {α : Type} (p : α → Bool) (l : List α) (e : α)
    (hl : l.find? p = none) (he : p e = true) : (l ++ [e]).find? p = some e := by
  rw [List.find?_append, hl]
  simp [List.find?, he]

/-- A lookup that misses now also misses at any later time: entries too
old at `now` are older still later, and key mismatches stay mismatched. -/
theorem cacheLookup_stale (cache : List CacheEntry) (u hsh : String) (r : Nat)
    (now nowLater : Int) (hmiss : cacheLookup cache u hsh r now = none)
    (hle : now ≤ nowLater) : cacheLookup cache u hsh r nowLater = none := by
  unfold cacheLookup at hmiss ⊢
  rw [List.find?_eq_none] at hmiss ⊢
  intro e he
  have hm := hmiss e he
  simp only [Bool.and_eq_true, beq_iff_eq, decide_eq_true_eq] at hm ⊢
  intro hcon
  obtain ⟨hab, hc⟩ := hcon
  exact hm ⟨hab, by omega⟩

/-- C4: the lookup returns a stored entry only when it belongs to the
collection, matches the key, and satisfies now minus createdAt at most the
retention window; and a single stored entry created at t0 is a hit at
t0 + retention - eps and a miss at t0 + retention + eps for positive eps,
while it remains physically stored. -/
theorem c4_cache_ttl :
    (∀ (cache : List CacheEntry) (u hsh : String) (r : Nat) (now : Int) (e : CacheEntry),
      cacheLookup cache u hsh r now = some e →
        e ∈ cache ∧ e.userId = u ∧ e.hash = hsh ∧ now - e.createdAt ≤ (r : Int)) ∧
    (∀ (u hsh res : String) (t0 : Int) (r : Nat) (ε : Int), 0 < ε →
      cacheLookup [⟨u, hsh, res, t0⟩] u hsh r (t0 + r - ε) = some ⟨u, hsh, res, t0⟩ ∧
      cacheLookup [⟨u, hsh, res, t0⟩] u hsh r (t0 + r + ε) = none) := by
  constructor
  · intro cache u hsh r now e hfind
    unfold cacheLookup at hfind
    have hmem := List.mem_of_find?_eq_some hfind
    have hp := List.find?_some hfind
    simp only [Bool.and_eq_true, beq_iff_eq, decide_eq_true_eq] at hp
    obtain ⟨⟨hp1, hp2⟩, hp3⟩ := hp
    exact ⟨hmem, hp1, hp2, by omega⟩
  · intro u hsh res t0 r ε hε
    constructor
    · unfold cacheLookup
      apply List.find?_cons_of_pos
      simp only [Bool.and_eq_true, beq_self_eq_true, true_and, and_true,
        decide_eq_true_eq]
      omega
    · unfold cacheLookup
      rw [List.find?_eq_none]
      intro e he
      rcases List.mem_singleton.mp he with rfl
      simp only [Bool.and_eq_true, beq_self_eq_true, true_and, and_true,
        decide_eq_true_eq]
      omega

/-- C4 witness: an entry created at 100 with a 50-second window is a hit
at 149 and a miss at 151. -/
theorem c4_cache_ttl_witness :
    (0 : Int) < 1 ∧
      (cacheLookup [⟨"u1", "hx", "grant", 100⟩] "u1" "hx" 50 149 =
          some ⟨"u1", "hx", "grant", 100⟩ ∧
        cacheLookup [⟨"u1", "hx", "grant", 100⟩] "u1" "hx" 50 151 = none) :=
  ⟨by decide, c4_cache_ttl.2 "u1" "hx" "grant" 100 50 1 (by decide)⟩

/-- C5: a successful preference update removes every cache row of that
user while touching no other row, so any lookup for that user misses and
the next evaluation for that user is never served from a pre-change
entry. -/
theorem c5_preference_update_invalidates (st : ServerState) (uid : String)
    (pref : PrivacyPreference) (st2 : ServerState)
    (h : updatePreferences st uid pref = some st2) :
    (∀ e ∈ st2.cache, e.userId ≠ uid ∧ e ∈ st.cache) ∧
    (∀ (hsh : String) (r : Nat) (now : Int),
      cacheLookup st2.cache uid hsh r now = none) ∧
    (∀ (E : App → User → Bool) (app : App) (user : User) (now : Int),
      user.id = uid →
        (processEvaluationRequest E st2.cache app user now).1.cacheHit = false) := by
  unfold updatePreferences at h
  cases hfu : findUser st.users uid with
  | none =>
    rw [hfu] at h
    cases h
  | some u0 =>
    rw [hfu] at h
    have hcache : st2.cache = st.cache.filter (fun e => !(e.userId == uid)) := by
      cases h
      rfl
    have hmem : ∀ e ∈ st2.cache, e.userId ≠ uid ∧ e ∈ st.cache := by
      intro e he
      rw [hcache] at he
      have h1 := List.mem_filter.mp he
      refine ⟨?_, h1.1⟩
      have h2 := h1.2
      simp only [Bool.not_eq_true', beq_eq_false_iff_ne] at h2
      exact h2
    have hnone : ∀ (hsh : String) (r : Nat) (now : Int),
        cacheLookup st2.cache uid hsh r now = none := by
      intro hsh r now
      unfold cacheLookup
      rw [List.find?_eq_none]
      intro e he
      have := (hmem e he).1
      simp only [Bool.and_eq_true, beq_iff_eq, decide_eq_true_eq]
      intro hcon
      exact this hcon.1.1
    refine ⟨hmem, hnone, ?_⟩
    intro E app user now huid
    simp only [processEvaluationRequest, huid, hnone]

/-- C5 witness: updating the stored user u2 empties the cache row kept for
u2, and the next evaluation for u2 misses. -/
theorem c5_preference_update_invalidates_witness :
    updatePreferences stBefore "u2" userRetention.privacyPreference = some stAfter ∧
    userGps.id = "u2" ∧
    (processEvaluationRequest (fun _ _ => true) stAfter.cache appGps userGps 5).1.cacheHit
      = false := by
  have hupd : updatePreferences stBefore "u2" userRetention.privacyPreference
      = some stAfter := by decide
  exact ⟨hupd, rfl,
    (c5_preference_update_invalidates stBefore "u2" userRetention.privacyPreference
      stAfter hupd).2.2 (fun _ _ => true) appGps userGps 5 rfl⟩

/-- C6: on a miss the coordinator runs the evaluator, returns its verdict
with cacheHit false, and appends the row (userId, fingerprint, verdict,
now); a second identical request inside the retention window with no
intervening change returns the same verdict with cacheHit true and leaves
the cache unchanged. -/
theorem c6_miss_evaluates_then_hits (E : App → User → Bool)
    (cache : List CacheEntry) (app : App) (user : User) (now nowLater : Int)
    (hmiss : cacheLookup cache user.id (requestHash app user)
        user.privacyPreference.timeofRetention now = none)
    (hle : now ≤ nowLater)
    (hwin : nowLater - now ≤ (user.privacyPreference.timeofRetention : Int)) :
    (processEvaluationRequest E cache app user now).1.cacheHit = false ∧
    (processEvaluationRequest E cache app user now).1.result =
      (if E app user then "grant" else "deny") ∧
    (processEvaluationRequest E cache app user now).2 =
      cache ++ [⟨user.id, requestHash app user,
        if E app user then "grant" else "deny", now⟩] ∧
    (processEvaluationRequest E (processEvaluationRequest E cache app user now).2
        app user nowLater).1.cacheHit = true ∧
    (processEvaluationRequest E (processEvaluationRequest E cache app user now).2
        app user nowLater).1.result =
      (processEvaluationRequest E cache app user now).1.result ∧
    (processEvaluationRequest E (processEvaluationRequest E cache app user now).2
        app user nowLater).2 =
      (processEvaluationRequest E cache app user now).2 := by
  have e1 : processEvaluationRequest E cache app user now =
      ({ result := if E app user then "grant" else "deny", cacheHit := false },
        cache ++ [⟨user.id, requestHash app user,
          if E app user then "grant" else "deny", now⟩]) := by
    simp only [processEvaluationRequest, hmiss]
  have hstale := cacheLookup_stale cache user.id (requestHash app user)
    user.privacyPreference.timeofRetention now nowLater hmiss hle
  have hhit : cacheLookup (cache ++ [⟨user.id, requestHash app user,
      if E app user then "grant" else "deny", now⟩]) user.id (requestHash app user)
      user.privacyPreference.timeofRetention nowLater =
      some ⟨user.id, requestHash app user,
        if E app user then "grant" else "deny", now⟩ := by
    unfold cacheLookup at hstale ⊢
    apply find?_append_singleton _ _ _ hstale
    simp only [Bool.and_eq_true, beq_self_eq_true, true_and, and_true,
      decide_eq_true_eq]
    omega
  have e2 : processEvaluationRequest E (cache ++ [⟨user.id, requestHash app user,
      if E app user then "grant" else "deny", now⟩]) app user nowLater =
      ({ result := if E app user then "grant" else "deny", cacheHit := true },
        cache ++ [⟨user.id, requestHash app user,
          if E app user then "grant" else "deny", now⟩]) := by
    simp only [processEvaluationRequest, hhit]
  rw [e1, e2]
  simp

/-- C6 witness: on the empty cache the first request misses and writes,
the second identical request at the same instant hits with the same
verdict. -/
theorem c6_miss_evaluates_then_hits_witness :
    cacheLookup [] userGps.id (requestHash appGps userGps)
        userGps.privacyPreference.timeofRetention 0 = none ∧
    (0 : Int) ≤ 0 ∧
    (0 : Int) - 0 ≤ (userGps.privacyPreference.timeofRetention : Int) ∧
    ((processEvaluationRequest (fun _ _ => true) [] appGps userGps 0).1.cacheHit = false ∧
     (processEvaluationRequest (fun _ _ => true) [] appGps userGps 0).1.result =
       (if (fun (_ : App) (_ : User) => true) appGps userGps then "grant" else "deny") ∧
     (processEvaluationRequest (fun _ _ => true) [] appGps userGps 0).2 =
       [] ++ [⟨userGps.id, requestHash appGps userGps,
         if (fun (_ : App) (_ : User) => true) appGps userGps then "grant" else "deny", 0⟩] ∧
     (processEvaluationRequest (fun _ _ => true)
         (processEvaluationRequest (fun _ _ => true) [] appGps userGps 0).2
         appGps userGps 0).1.cacheHit = true ∧
     (processEvaluationRequest (fun _ _ => true)
         (processEvaluationRequest (fun _ _ => true) [] appGps userGps 0).2
         appGps userGps 0).1.result =
       (processEvaluationRequest (fun _ _ => true) [] appGps userGps 0).1.result ∧
     (processEvaluationRequest (fun _ _ => true)
         (processEvaluationRequest (fun _ _ => true) [] appGps userGps 0).2
         appGps userGps 0).2 =
       (processEvaluationRequest (fun _ _ => true) [] appGps userGps 0).2) :=
  ⟨rfl, by decide, by decide,
    c6_miss_evaluates_then_hits (fun _ _ => true) [] appGps userGps 0 0 rfl
      (by decide) (by decide)⟩

/-! ## Claims about the fingerprint generator -/

/-- Every hex digit of a reduced value is one of the sixteen lowercase hex
characters. -/
theorem hexDigit_mem (n : Nat) : hexDigit (n % 16) ∈ ("0123456789abcdef".data) := by
  have h : n % 16 < 16 := Nat.mod_lt _ (by omega)
  revert h
  generalize n % 16 = m
  intro h
  interval_cases m <;> decide

/-- Every character of the eight-digit rendering of a word is a hex
character. -/
theorem hex8_mem (w : Nat) : ∀ c ∈ hex8 w, c ∈ ("0123456789abcdef".data) := by
  intro c hc
  simp only [hex8, List.mem_cons, List.not_mem_nil, or_false] at hc
  rcases hc with rfl | rfl | rfl | rfl | rfl | rfl | rfl | rfl <;>
    exact hexDigit_mem _

/-- Every SHA-256 hex digest has exactly 64 characters. -/
theorem sha256_length (s : String) : (sha256 s).length = 64 := by
  show (digestHex (sha256Digest (utf8Bytes s))).length = 64
  simp [digestHex, hex8]

/-- Every character of a SHA-256 hex digest is a lowercase hex digit. -/
theorem sha256_hex_chars (s : String) :
    ∀ c ∈ (sha256 s).data, c ∈ ("0123456789abcdef".data) := by
  intro c hc
  have hc2 : c ∈ digestHex (sha256Digest (utf8Bytes s)) := hc
  simp only [digestHex, List.mem_append] at hc2
  rcases hc2 with ((((((h | h) | h) | h) | h) | h) | h) | h <;>
    exact hex8_mem _ _ h

/-- C7: the cache key is the double hash SHA256 of SHA256 of the app JSON,
joined by a dash separator with SHA256 of the preference JSON, and it is
always a 64-character string of lowercase hex digits (so a 256-bit
digest). -/
theorem c7_fingerprint_shape (a p : JObj) :
    computeCacheKey a p =
      sha256 (sha256 (stringifyObj a) ++ "-" ++ sha256 (stringifyObj p)) ∧
    (computeCacheKey a p).length = 64 ∧
    ∀ c ∈ (computeCacheKey a p).data, c ∈ ("0123456789abcdef".data) :=
  ⟨rfl, sha256_length _, sha256_hex_chars _⟩

set_option maxRecDepth 100000 in
/-- C8 counterexample: the records a:1,b:2 and b:2,a:1 hold the same
fields as sets, yet their JSON.stringify serializations differ in field
order and their fingerprints differ. -/
theorem c8_field_order_changes_fingerprint :
    jObjAB.Perm jObjBA ∧ computeCacheKey jObjAB jObjC ≠ computeCacheKey jObjBA jObjC := by
  constructor
  · exact List.Perm.swap _ _ _
  · decide

/-- C8 (amended): the serialization is JSON.stringify over the field list
in insertion order; it is deterministic, so records with equal
serializations (same fields in the same order) always produce the same
fingerprint, but a permuted field order may change the digest. -/
theorem c8_equal_serialization_equal_fingerprint (a1 a2 p1 p2 : JObj)
    (ha : stringifyObj a1 = stringifyObj a2)
    (hp : stringifyObj p1 = stringifyObj p2) :
    computeCacheKey a1 p1 = computeCacheKey a2 p2 := by
  unfold computeCacheKey
  rw [ha, hp]

/-- C8 witness: a record fingerprinted against itself, field order
unchanged, yields the identical key. -/
theorem c8_equal_serialization_equal_fingerprint_witness :
    stringifyObj jObjAB = stringifyObj jObjAB ∧
    stringifyObj jObjC = stringifyObj jObjC ∧
    computeCacheKey jObjAB jObjC = computeCacheKey jObjAB jObjC :=
  ⟨rfl, rfl, c8_equal_serialization_equal_fingerprint jObjAB jObjAB jObjC jObjC rfl rfl⟩
